import Mathlib

/-!
# Verification of the asm-code-lens-ca65 symbol engine

Shallow embedding of the label/symbol extraction engine of the
`asm-code-lens-ca65` VS Code extension:

* `CompletionRegexes` (src/regexes/completionregexes.ts): the fuzzy-word
  search patterns, embedded as executable matchers over `List Char`.
* `DocumentSymbolProvider.provideDocumentSymbols`
  (src/DocumentSymbolProvider.ts): the line scanner with its scope stack,
  embedded as a fold of a per-line step function over an arena of symbol
  nodes (object aliasing in the TypeScript source becomes arena indices).
* `WorkspaceSymbolProvider.provideWorkspaceSymbols` /
  `getWsSymbols` (src/WorkspaceSymbolProvider.ts).

The regex factory modules `CommonRegexes` and `SymbolRegexes`, the
comment stripper, and the `grep` module are not part of the shown
sources; where the scanner consumes them they are modelled from the
spec (each such definition carries a `Modelled from the spec:` note).
Documents are assumed comment-stripped, which the spec states as the
scanner's precondition.
-/

set_option autoImplicit false

/-! ## Character classes

JavaScript regex classes, restricted to the characters that can occur in
a line of a source file (the document is split at newlines before the
scanner or any per-line regex runs, so `\n` never occurs in an input). -/

/-- JavaScript `\w`: ASCII letters, digits and underscore. -/
def isWordChar (c : Char) : Bool :=
  c.isAlpha || c.isDigit || c == '_'

/-- JavaScript `\s`, restricted to characters that can occur in a line
(space, tab, carriage return). -/
def isSpaceChar (c : Char) : Bool :=
  c == ' ' || c == '\t' || c == '\r'

/-- The class `[\w\.]` used for (dotted) label identifiers. -/
def isLabelChar (c : Char) : Bool :=
  isWordChar c || c == '.'

/-- Case-insensitive character comparison (the `i` regex flag). -/
def charCIEq (a b : Char) : Bool :=
  a.toLower == b.toLower

/-- Word-character test on an optional character; `none` (string edge)
counts as a non-word position, as in JavaScript `\b`. -/
def isWordOpt : Option Char → Bool
  | none => false
  | some c => isWordChar c

/-- JavaScript `\b`: a word boundary between the previous and the next
character. -/
def isBoundary (prev next : Option Char) : Bool :=
  isWordOpt prev != isWordOpt next

theorem isSpaceChar_not_word {c : Char} (h : isSpaceChar c = true) :
    isWordChar c = false := by
  simp only [isSpaceChar, Bool.or_eq_true, beq_iff_eq] at h
  rcases h with (h | h) | h <;> subst h <;> decide

/-! ## Subsequences and the fuzzy word pattern

`CommonRegexes.regexPrepareFuzzy` (not under src/) compiles a query
`c1 c2 … ck` into the interleaved-wildcard pattern `\w*c1\w*c2…\w*ck`
(spec §4.1: "an input search word of length N is compiled into an
interleaved-wildcard pattern (`\w*c1\w*c2\w*...`)").  `fuzzyMatch q s`
decides whether that pattern matches some prefix of `s` (the search
patterns never anchor the fuzzy word at the end). -/

/-- Boolean subsequence test: `isSubseqB q s` holds iff the characters of
`q` occur in `s` in order. -/
def isSubseqB : List Char → List Char → Bool
  | [], _ => true
  | _ :: _, [] => false
  | c :: q, d :: s => if c = d then isSubseqB q s else isSubseqB (c :: q) s

/-- The fuzzy pattern `\w*c1\w*c2…\w*ck` (case-insensitive) matched
against a prefix of `s`. -/
def fuzzyMatch : List Char → List Char → Bool
  | [], _ => true
  | _ :: _, [] => false
  | c :: q, d :: s =>
      (charCIEq c d && fuzzyMatch q s) || (isWordChar d && fuzzyMatch (c :: q) s)

/-- A (literal) subsequence of a word-character identifier is accepted by
the fuzzy pattern. -/
theorem fuzzyMatch_of_isSubseqB {q s : List Char} (hsub : isSubseqB q s = true)
    (hw : s.all isWordChar = true) : fuzzyMatch q s = true := by
  induction s generalizing q with
  | nil =>
    cases q with
    | nil => rfl
    | cons c q => simp [isSubseqB] at hsub
  | cons d s ih =>
    cases q with
    | nil => rfl
    | cons c q =>
      simp only [List.all_cons, Bool.and_eq_true] at hw
      simp only [isSubseqB] at hsub
      by_cases hcd : c = d
      · subst hcd
        simp only [if_pos rfl] at hsub
        have : charCIEq c c = true := by simp [charCIEq]
        simp [fuzzyMatch, this, ih hsub hw.2]
      · rw [if_neg hcd] at hsub
        simp [fuzzyMatch, hw.1, ih hsub hw.2]

/-! ## A matcher-combinator semantics for the concrete search patterns

Each search regex of `CompletionRegexes` is `^`-anchored; we embed it as
a continuation-passing matcher over the line's characters.  A matcher
receives the previously consumed character (for `\b`), the remaining
input, and a continuation, and returns whether some way of consuming a
prefix lets the continuation succeed — exactly the backtracking
semantics of the JavaScript engine for these patterns (capture groups
only influence the reported groups, not matching, and are handled
separately where a claim needs them). -/

/-- Continuation of a matcher: previous character and remaining input. -/
abbrev MK := Option Char → List Char → Bool

/-- A CPS matcher over the characters of a line. -/
abbrev M := Option Char → List Char → MK → Bool

/-- The empty pattern. -/
def mEps : M := fun prev s k => k prev s

/-- A single character from a class. -/
def mPred (p : Char → Bool) : M := fun _ s k =>
  match s with
  | [] => false
  | c :: r => p c && k (some c) r

/-- A literal character, case-insensitive (`i` flag). -/
def mCharCI (c : Char) : M := mPred (charCIEq c)

/-- A literal character, exact. -/
def mCharLit (c : Char) : M := mPred (· == c)

/-- Sequencing of two patterns. -/
def mSeq (a b : M) : M := fun prev s k => a prev s (fun prev' s' => b prev' s' k)

/-- Alternation of two patterns. -/
def mAlt (a b : M) : M := fun prev s k => a prev s k || b prev s k

/-- An optional pattern (`?`). -/
def mOpt (a : M) : M := mAlt a mEps

/-- Kleene star over a character class (`p*`): try the continuation at
every number of consumed class characters. -/
def mStarGo (p : Char → Bool) (k : MK) : Option Char → List Char → Bool
  | prev, [] => k prev []
  | prev, c :: r => k prev (c :: r) || (p c && mStarGo p k (some c) r)

/-- Kleene star over a character class, as a matcher. -/
def mStar (p : Char → Bool) : M := fun prev s k => mStarGo p k prev s

/-- One or more repetitions of a character class (`p+`). -/
def mPlus (p : Char → Bool) : M := mSeq (mPred p) (mStar p)

/-- The zero-width `\b` assertion. -/
def mBound : M := fun prev s k => isBoundary prev s.head? && k prev s

/-- A negative lookahead `(?!c)` for a character class: succeeds when the
next character (if any) is not in the class. -/
def mNegLook (p : Char → Bool) : M := fun prev s k =>
  (match s.head? with
   | none => true
   | some c => !p c) && k prev s

/-- The `$` end-of-input anchor. -/
def mEndA : M := fun prev s k => s.isEmpty && k prev s

/-- A case-insensitive literal word. -/
def mLitCI : List Char → M
  | [] => mEps
  | c :: w => mSeq (mCharCI c) (mLitCI w)

/-- The fuzzy pattern `\w*c1\w*c2…\w*ck` as a matcher. -/
def mFuzzy : List Char → M
  | [] => mEps
  | c :: q => mSeq (mStar isWordChar) (mSeq (mCharCI c) (mFuzzy q))

/-- Run an (anchored) matcher against a whole line. -/
def mMatches (m : M) (line : List Char) : Bool :=
  m none line (fun _ _ => true)

/-! ## CompletionRegexes (src/regexes/completionregexes.ts)

The fuzzy search patterns, translated pattern-constructor by
pattern-constructor from the regex source text. -/

/-- The class `[^0-9 ]` opening group 1 of
`regexEveryLabelWithoutColonForWord` (only the digit characters and the
plain space are excluded, exactly as in the source class). -/
def isG1StartChar (c : Char) : Bool :=
  !c.isDigit && c != ' '

/-- The lookahead class `[:\w\.]` of `regexEveryLabelWithoutColonForWord`. -/
def isColonOrLabelChar (c : Char) : Bool :=
  c == ':' || isWordChar c || c == '.'

/-- `CompletionRegexes.regexEveryLabelWithoutColonForWord`:
`^(([^0-9 ][\w\.]*)?)\b` + fuzzy + `[\w\.]*\b(?![:\w\.])`, flag `i`. -/
def labelWithoutColonM (q : List Char) : M :=
  mSeq (mOpt (mSeq (mPred isG1StartChar) (mStar isLabelChar)))
    (mSeq mBound
      (mSeq (mFuzzy q)
        (mSeq (mStar isLabelChar)
          (mSeq mBound (mNegLook isColonOrLabelChar)))))

/-- Whether `regexEveryLabelWithoutColonForWord` for query `q` matches a
line. -/
def labelWithoutColonMatch (q line : List Char) : Bool :=
  mMatches (labelWithoutColonM q) line

/-- `CompletionRegexes.regexEveryLabelColonForWord`, `asm-collection`
branch: `(^@?[\w\.]*|^.*\s@?[\w\.]*)\b` + fuzzy + `[\w\.]*:(?:[^:]|$)`,
flag `i`. -/
def labelColonCollectionM (q : List Char) : M :=
  mSeq
    (mAlt (mSeq (mOpt (mCharLit '@')) (mStar isLabelChar))
      (mSeq (mStar (fun _ => true))
        (mSeq (mPred isSpaceChar)
          (mSeq (mOpt (mCharLit '@')) (mStar isLabelChar)))))
    (mSeq mBound
      (mSeq (mFuzzy q)
        (mSeq (mStar isLabelChar)
          (mSeq (mCharLit ':') (mAlt (mPred (· != ':')) mEndA)))))

/-- Whether `regexEveryLabelColonForWord` (`asm-collection` branch) for
query `q` matches a line. -/
def labelColonCollectionMatch (q line : List Char) : Bool :=
  mMatches (labelColonCollectionM q) line

/-- The two file dialects (`languageId.ts`): `asm-collection` for
primary assembly sources and `asm-list-file` for assembler listings. -/
inductive LangId where
  | asmCollection
  | asmListFile
  deriving DecidableEq

/-- Strip a case-insensitive literal keyword (given in lowercase) from
the front of the input, returning the matched original characters and
the rest. -/
def stripCI : List Char → List Char → Option (List Char × List Char)
  | [], s => some ([], s)
  | _ :: _, [] => none
  | c :: p, d :: s =>
      if d.toLower = c then (stripCI p s).map (fun m => (d :: m.1, m.2))
      else none

theorem stripCI_append {p s m r : List Char} (h : stripCI p s = some (m, r)) :
    s = m ++ r ∧ m.map Char.toLower = p := by
  induction p generalizing s m with
  | nil =>
    simp only [stripCI, Option.some.injEq, Prod.mk.injEq] at h
    simp [← h.1, ← h.2]
  | cons c p ih =>
    cases s with
    | nil => simp [stripCI] at h
    | cons d s =>
      simp only [stripCI] at h
      by_cases hd : d.toLower = c
      · rw [if_pos hd] at h
        cases hm : stripCI p s with
        | none => rw [hm] at h; simp at h
        | some mr =>
          obtain ⟨m1, r1⟩ := mr
          rw [hm] at h
          simp only [Option.map_some', Option.some.injEq, Prod.mk.injEq] at h
          obtain ⟨h1, h2⟩ := h
          subst h2
          obtain ⟨hs, hl⟩ := ih hm
          subst h1
          simp [hs, hl, hd]
      · rw [if_neg hd] at h
        exact absurd h (by simp)

/-- Core of `regexEveryModuleForWord` / `regexEveryMacroForWord`:
`^(\s+(KEYWORD)\s+)` + fuzzy + tail, for a given lowercase keyword.
Returns capture group 1 (everything before the fuzzy word) on a match.
Both `\s+` runs are resolved greedily; this coincides with the
JavaScript engine whenever no query character is a whitespace character
(a whitespace query character could let the engine shorten the second
run — the theorems below assume space-free queries where it matters). -/
def execKeywordCore (kw : List Char) (q : List Char) (line : List Char) :
    Option (List Char) :=
  let s1 := line.takeWhile isSpaceChar
  let r1 := line.dropWhile isSpaceChar
  if s1.isEmpty then none
  else
    match stripCI kw r1 with
    | none => none
    | some (m, r2) =>
        let s2 := r2.takeWhile isSpaceChar
        let r3 := r2.dropWhile isSpaceChar
        if s2.isEmpty then none
        else if fuzzyMatch q r3 then some (s1 ++ m ++ s2) else none

/-- Listing-file variant `^(.*?\s+(KEYWORD)\s+)…`: the lazy `.*?` scans
for the leftmost position where the core matches; the scanned-over
characters are part of capture group 1. -/
def execKeywordList (kw q : List Char) : List Char → List Char → Option (List Char)
  | [], acc =>
      match execKeywordCore kw q [] with
      | some g => some (acc.reverse ++ g)
      | none => none
  | c :: r, acc =>
      match execKeywordCore kw q (c :: r) with
      | some g => some (acc.reverse ++ g)
      | none => execKeywordList kw q r (c :: acc)

/-- `CompletionRegexes.regexEveryModuleForWord`: for `asm-list-file`
`^(.*?\s+(MODULE)\s+)` + fuzzy + `[\w\.]*`, otherwise
`^(\s+(MODULE)\s+)` + fuzzy + `[\w\.]*` (flag `i`).  Returns capture
group 1 on a match (the trailing `[\w\.]*` cannot affect whether a match
exists, so it does not appear in the computation). -/
def regexEveryModuleForWord : LangId → List Char → List Char → Option (List Char)
  | .asmListFile, q, line => execKeywordList "module".data q line []
  | .asmCollection, q, line => execKeywordCore "module".data q line

/-- `CompletionRegexes.regexEveryMacroForWord`: identical shape with the
keyword `MACRO` and tail `[\w\._]*`. -/
def regexEveryMacroForWord : LangId → List Char → List Char → Option (List Char)
  | .asmListFile, q, line => execKeywordList "macro".data q line []
  | .asmCollection, q, line => execKeywordCore "macro".data q line

/-! ## Spec-modelled line parsers for the document-symbol scanner

`DocumentSymbolProvider.provideDocumentSymbols` builds its per-line
regexes from `CommonRegexes` and `SymbolRegexes`, which are not part of
the shown sources.  Each parser below is therefore modelled from the
spec's description of the corresponding pattern and returns exactly the
capture groups the scanner consumes. -/

/-- Trim leading and trailing whitespace (JavaScript `String.trim`). -/
def trimChars (s : List Char) : List Char :=
  ((s.dropWhile isSpaceChar).reverse.dropWhile isSpaceChar).reverse

/-- Trim trailing whitespace (JavaScript `String.trimEnd`). -/
def trimEndChars (s : List Char) : List Char :=
  (s.reverse.dropWhile isSpaceChar).reverse

/-- Modelled from the spec: `CommonRegexes.regexLabel` is not under
src/.  Spec §4.1 (label-with-colon, source dialect): the label may be
preceded by an optional `@` cheap-local marker (capture group 1) and
consists of a leading `[^0-9\s]` character followed by `[\w\.]*`
(capture group 2), terminated by a colon; dotted identifiers are matched
as a unit.  This models the configuration `labelsWithColons = true`,
`labelsWithoutColons = false`, which the scanner claims are stated for.
The scanner uses `match[0].trimEnd()` only to strip the label from the
line, so the parser returns the rest of the line after the colon
directly: `regexLabel line = some (g1, g2, rest)` with
`line = g1 ++ g2 ++ ':' :: rest`. -/
def regexLabel (line : List Char) : Option (List Char × List Char × List Char) :=
  let core : List Char → Option (List Char × List Char) := fun s =>
    match s with
    | [] => none
    | c :: r =>
        if c.isDigit || isSpaceChar c then none
        else
          match r.dropWhile isLabelChar with
          | ':' :: tail => some (c :: r.takeWhile isLabelChar, tail)
          | _ => none
  match line with
  | '@' :: r =>
      match core r with
      | some (g2, rest) => some (['@'], g2, rest)
      | none => (core line).map (fun g => ([], g.1, g.2))
  | _ => (core line).map (fun g => ([], g.1, g.2))

/-- Try each keyword of a `(kw1|kw2)\b` alternation after optional
leading whitespace, returning the (lowercase) keyword and the
`([\w\.]*)` name that follows it after optional whitespace. -/
def parseKeywordLabel (kws : List (List Char)) (line : List Char) :
    Option (List Char × List Char) :=
  let r1 := line.dropWhile isSpaceChar
  kws.findSome? fun kw =>
    match stripCI kw r1 with
    | none => none
    | some (_, r2) =>
        if isWordOpt r2.head? then none
        else some (kw, (r2.dropWhile isSpaceChar).takeWhile isLabelChar)

/-- Modelled from the spec: `SymbolRegexes.regexModuleLabel` is not
under src/.  Matches a sjasmplus `MODULE name` declaration or its
`ENDMODULE` counterpart (case-insensitive, optionally indented), with
capture group 1 the keyword and capture group 2 the (possibly empty)
module name; the scanner lowercases group 1. -/
def regexModuleLabel (line : List Char) : Option (List Char × List Char) :=
  parseKeywordLabel ["module".data, "endmodule".data] line

/-- Modelled from the spec: `SymbolRegexes.regexStructLabel` is not
under src/.  Same shape as `regexModuleLabel` for `STRUCT` / `ENDS`. -/
def regexStructLabel (line : List Char) : Option (List Char × List Char) :=
  parseKeywordLabel ["struct".data, "ends".data] line

/-- The named CA65 directives recognised by the scanner (spec §4.1:
"dialect-specific directives (e.g. CA65 `.proc`/`.scope`/`.macro` style
blocks)"; `.define` is included because the scanner tests
`directive.startsWith(".define")` on the captured group). -/
def ca65OpenDirectives : List (List Char) :=
  ["proc".data, "scope".data, "macro".data, "struct".data,
   "enum".data, "union".data, "define".data]

/-- Modelled from the spec: `CommonRegexes.regexAllCA65Directives` is
not under src/.  Matches a named CA65 block/definition directive
`.kw name` (optionally indented); capture group 1 is the directive
(the scanner applies `toLowerCase().trim()`, so the lowercased dotted
keyword is returned directly) and capture group 2 the `\w+` name. -/
def regexAllCA65Directives (line : List Char) : Option (List Char × List Char) :=
  match line.dropWhile isSpaceChar with
  | '.' :: r =>
      ca65OpenDirectives.findSome? fun kw =>
        match stripCI kw r with
        | none => none
        | some (_, r2) =>
            if isWordOpt r2.head? then none
            else
              let name := (r2.dropWhile isSpaceChar).takeWhile isWordChar
              if name.isEmpty then none else some ('.' :: kw, name)
  | _ => none

/-- Modelled from the spec: `CommonRegexes.regexCA65BlockEnd` is not
under src/.  Matches a CA65 block-closing directive of the `.end…`
family (`.endproc`, `.endscope`, `.endmacro`, …), optionally
indented. -/
def regexCA65BlockEnd (line : List Char) : Bool :=
  match line.dropWhile isSpaceChar with
  | '.' :: r => (stripCI "end".data r).isSome
  | _ => false

/-- Modelled from the spec: `SymbolRegexes.regexConst` is not under
src/.  Matches an `EQU`-style constant definition on the (already
trimmed) operand text: capture group 1 the keyword as written, capture
group 2 the remainder after the separating whitespace. -/
def regexConst (s : List Char) : Option (List Char × List Char) :=
  match stripCI "equ".data s with
  | none => none
  | some (m, r) =>
      let r2 := r.dropWhile isSpaceChar
      if r == r2 then none else some (m, r2)

/-- The data-definition keywords (spec §4.2 step 5, "e.g. defb"). -/
def dataKeywords : List (List Char) :=
  ["defb".data, "defw".data, "defs".data, "defm".data,
   "db".data, "dw".data, "ds".data, "dm".data]

/-- Modelled from the spec: `SymbolRegexes.regexData` is not under
src/.  Matches a `defb`-style data definition on the trimmed operand
text, with the same group convention as `regexConst`. -/
def regexData (s : List Char) : Option (List Char × List Char) :=
  dataKeywords.findSome? fun kw =>
    match stripCI kw s with
    | none => none
    | some (m, r) =>
        let r2 := r.dropWhile isSpaceChar
        if r == r2 then none else some (m, r2)

/-- Modelled from the spec: the body of `SymbolRegexes.regexMacro`
(source-file dialect): `MACRO` as the first non-whitespace token,
followed by whitespace and the `[\w\._]*` macro name (capture group 2,
the only group the scanner reads). -/
def parseMacroCollection (line : List Char) : Option (List Char) :=
  let r1 := line.dropWhile isSpaceChar
  match stripCI "macro".data r1 with
  | none => none
  | some (_, r2) =>
      let r3 := r2.dropWhile isSpaceChar
      if r2 == r3 then none
      else some (r3.takeWhile (fun c => isWordChar c || c == '.'))

/-- Modelled from the spec: the listing-file variant of
`SymbolRegexes.regexMacro` allows arbitrary text before the
whitespace-preceded `MACRO` keyword. -/
def parseMacroList : List Char → Option (List Char)
  | [] => none
  | c :: r =>
      match parseMacroCollection (c :: r) with
      | some n => some n
      | none => parseMacroList r

/-- Modelled from the spec: `SymbolRegexes.regexMacro(languageId)` is
not under src/; its result type is `RegExp | undefined` (the scanner
guards with `if (regexMacro)`).  Spec §4.1 describes a MACRO pattern
variant for each of the two dialects and §4.2 step 3 applies the
pattern in the scan, so the factory is modelled as returning a pattern
for both dialects. -/
def regexMacroSym (langId : LangId) : Option (List Char → Option (List Char)) :=
  match langId with
  | .asmCollection => some parseMacroCollection
  | .asmListFile => some parseMacroList

/-! ## DocumentSymbolProvider (src/DocumentSymbolProvider.ts)

The scanner of `provideDocumentSymbols`, embedded as a fold of a
per-line step over an explicit state.  `vscode.DocumentSymbol` objects
are held in an append-only arena (`ScanState.nodes`); the TypeScript
aliases `lastSymbol`, `lastSymbols`, `lastAbsSymbolChildren` and
`lastModules` become arena indices.  `children.push` on an aliased
symbol becomes "create the node with that parent index"; the ranges
`(line, 0)–(line, 10000)` are represented by the line number. -/

/-- The `vscode.SymbolKind` values the scanner emits. -/
inductive DocSymbolKind where
  | function
  | constant
  | field
  | method
  | moduleKind
  | structKind
  deriving DecidableEq

/-- Which scanner branch created a node (label handling, CA65 directive,
MACRO, MODULE or STRUCT declaration). -/
inductive DocOrigin where
  | label
  | ca65
  | macroDecl
  | moduleDecl
  | structDecl
  deriving DecidableEq

/-- Where a node was attached at creation: pushed onto the document-root
`symbols` array, pushed into the `children` of the node at an arena
index, or (for a relative label with no pending absolute label, where
`lastAbsSymbolChildren?.push` is a no-op) not attached anywhere. -/
inductive DocParent where
  | root
  | node (i : Nat)
  | detached
  deriving DecidableEq

/-- An arena entry for one `vscode.DocumentSymbol`. -/
structure DocNode where
  name : List Char
  detail : List Char
  kind : DocSymbolKind
  line : Nat
  parent : DocParent
  origin : DocOrigin
  deriving DecidableEq

/-- The per-workspace configuration fields the scanner reads. -/
structure DocConfig where
  enableOutlineView : Bool
  labelsExcludes : List (List Char)
  enableCA65CheapLocalLabelNestingInOutline : Bool
  deriving DecidableEq

/-- The scanner's loop state. -/
structure ScanState where
  nodes : List DocNode
  lastSymbol : Option Nat
  lastSymbols : List Nat
  lastAbsSymbolChildren : Option Nat
  lastModules : List Nat
  defaultSymbolKind : DocSymbolKind
  deriving DecidableEq

/-- `const excludes = ['include', ...config.labelsExcludes]`. -/
def excludesList (cfg : DocConfig) : List (List Char) :=
  "include".data :: cfg.labelsExcludes

/-- Attachment used for relative labels: the children of the node
`lastAbsSymbolChildren` aliases, or nowhere when it is `undefined`. -/
def parentOfOpt : Option Nat → DocParent
  | some i => .node i
  | none => .detached

/-- Attachment used for absolute labels, CA65 directives and modules:
the children of the last open scope frame, or the document root when the
scope stack is empty. -/
def topParent (lastModules : List Nat) : DocParent :=
  match lastModules.getLast? with
  | some i => .node i
  | none => .root

/-- The label-handling section (source lines 64–110): detect a label,
drop it if excluded, create its node, attach it as relative / cheap /
absolute, and strip the matched text (plus a synthetic trailing space)
from the line. -/
def labelPhase (cfg : DocConfig) (lineNo : Nat) (st : ScanState)
    (lineContents : List Char) : ScanState × List Char :=
  match regexLabel lineContents with
  | none => (st, lineContents)
  | some (g1, g2, rest) =>
      let label := g1 ++ g2
      if (excludesList cfg).contains label then (st, lineContents)
      else
        let idx := st.nodes.length
        let isRel := label.head? = some '.'
        let isCheapRoot :=
          !cfg.enableCA65CheapLocalLabelNestingInOutline && label.head? = some '@'
        let parent : DocParent :=
          if isRel then parentOfOpt st.lastAbsSymbolChildren
          else if isCheapRoot then .root
          else topParent st.lastModules
        let nd : DocNode :=
          ⟨label, [], st.defaultSymbolKind, lineNo, parent, .label⟩
        let lastAbs :=
          if isRel then st.lastAbsSymbolChildren
          else if isCheapRoot then st.lastAbsSymbolChildren
          else some idx
        ({ st with
            nodes := st.nodes ++ [nd],
            lastSymbol := some idx,
            lastSymbols := st.lastSymbols ++ [idx],
            lastAbsSymbolChildren := lastAbs },
          rest ++ [' '])

/-- The CA65 section (source lines 112–139): a named directive creates a
Method node under the current scope top and — unless it is a
`.define`-style directive — pushes a scope frame; otherwise a block-end
directive pops the stack (a no-op on an empty stack) and clears the
pending relative-label parent. -/
def ca65Phase (lineNo : Nat) (st : ScanState) (lineContents : List Char) :
    ScanState :=
  match regexAllCA65Directives lineContents with
  | some (directive, symbolName) =>
      let idx := st.nodes.length
      let nd : DocNode :=
        ⟨symbolName, [], .method, lineNo, topParent st.lastModules, .ca65⟩
      let st1 := { st with nodes := st.nodes ++ [nd] }
      if !(".define".data.isPrefixOf directive) then
        { st1 with lastModules := st1.lastModules ++ [idx] }
      else st1
  | none =>
      if regexCA65BlockEnd lineContents then
        { st with lastModules := st.lastModules.dropLast,
                  lastAbsSymbolChildren := none }
      else st

/-- Reclassification of the buffered labels (source lines 217–220):
`elem.kind = kind; elem.detail = …` for every element of
`lastSymbols`. -/
def reclassifyGo (idxs : List Nat) (kind : DocSymbolKind)
    (detail : List Char) : Nat → List DocNode → List DocNode
  | _, [] => []
  | i, nd :: ns =>
      (if idxs.contains i then { nd with kind := kind, detail := detail }
       else nd) :: reclassifyGo idxs kind detail (i + 1) ns

/-- See `reclassifyGo`; indices count from the start of the arena. -/
def reclassify (nodes : List DocNode) (idxs : List Nat)
    (kind : DocSymbolKind) (detail : List Char) : List DocNode :=
  reclassifyGo idxs kind detail 0 nodes

/-- The constant/data classification section (source lines 191–228). -/
def classificationPhase (st : ScanState) (lineContents : List Char) :
    ScanState :=
  let lineT := trimChars lineContents
  let st1 :=
    if lineT.isEmpty then { st with defaultSymbolKind := .function } else st
  match st1.lastSymbol with
  | none => st1
  | some _ =>
      if lineT.isEmpty then st1
      else
        let found : Option (DocSymbolKind × List Char) :=
          match regexConst lineT with
          | some (m1, m2) => some (.constant, m1 ++ ' ' :: trimEndChars m2)
          | none =>
              match regexData lineT with
              | some (m1, m2) => some (.field, m1 ++ ' ' :: trimEndChars m2)
              | none => none
        let st2 :=
          match found with
          | some (kind, detail) =>
              { st1 with
                  nodes := reclassify st1.nodes st1.lastSymbols kind detail,
                  defaultSymbolKind := kind }
          | none => st1
        { st2 with lastSymbol := none, lastSymbols := [] }

/-- The MODULE/STRUCT section (source lines 153–189) followed by the
classification section; only reachable when `regexMacro` is
`undefined`. -/
def moduleStructPhase (lineNo : Nat) (st : ScanState)
    (lineContents : List Char) : ScanState :=
  let matchModule :=
    match regexModuleLabel lineContents with
    | some m => some (m, DocOrigin.moduleDecl)
    | none => (regexStructLabel lineContents).map (fun m => (m, DocOrigin.structDecl))
  match matchModule with
  | some ((keyword, moduleName), origin) =>
      let st1 :=
        if moduleName.isEmpty then st
        else
          let idx := st.nodes.length
          let kind : DocSymbolKind :=
            if "module".data.isPrefixOf keyword then .moduleKind else .structKind
          let nd : DocNode :=
            ⟨moduleName, [], kind, lineNo, topParent st.lastModules, origin⟩
          { st with nodes := st.nodes ++ [nd],
                    lastModules := st.lastModules ++ [idx] }
      let st2 :=
        if keyword = "endmodule".data || keyword = "ends".data then
          { st1 with lastModules := st1.lastModules.dropLast,
                     lastAbsSymbolChildren := none }
        else st1
      { st2 with lastSymbol := none, lastSymbols := [] }
  | none => classificationPhase st lineContents

/-- One iteration of the scanner's line loop (source lines 61–229):
label handling, CA65 handling, then — because of the `continue` that
closes the `if (regexMacro)` block (source lines 142–151) — either the
macro check ends the iteration, or (only when `regexMacro` is
`undefined`) MODULE/STRUCT handling and classification run. -/
def macroOrModulePhase (langId : LangId) (lineNo : Nat) (st2 : ScanState)
    (l1 : List Char) : ScanState :=
  match regexMacroSym langId with
  | some pm =>
      match pm l1 with
      | some macroName =>
          let nd : DocNode :=
            ⟨macroName, [], .method, lineNo, .root, .macroDecl⟩
          { st2 with nodes := st2.nodes ++ [nd] }
      | none => st2
  | none => moduleStructPhase lineNo st2 l1

/-- See `macroOrModulePhase`; the phases are composed in source order,
the label phase feeding both the updated state and the stripped line
into the rest of the iteration. -/
def scanLine (cfg : DocConfig) (langId : LangId) (lineNo : Nat)
    (st : ScanState) (line : List Char) : ScanState :=
  macroOrModulePhase langId lineNo
    (ca65Phase lineNo (labelPhase cfg lineNo st line).1
      (labelPhase cfg lineNo st line).2)
    (labelPhase cfg lineNo st line).2

/-- The scanner's initial state. -/
def initState : ScanState :=
  { nodes := [], lastSymbol := none, lastSymbols := [],
    lastAbsSymbolChildren := none, lastModules := [],
    defaultSymbolKind := .function }

/-- Fold of `scanLine` over the numbered lines. -/
def scanDocGo (cfg : DocConfig) (langId : LangId) :
    Nat → ScanState → List (List Char) → ScanState
  | _, st, [] => st
  | n, st, l :: ls => scanDocGo cfg langId (n + 1) (scanLine cfg langId n st l) ls

/-- Scan a (comment-stripped) document. -/
def scanDoc (cfg : DocConfig) (langId : LangId) (lines : List (List Char)) :
    ScanState :=
  scanDocGo cfg langId 0 initState lines

/-- `DocumentSymbolProvider.provideDocumentSymbols`: `undefined` when the
outline view is disabled, otherwise the arena of symbols built by the
scan (document order; roots are the nodes with parent `root`, children
the nodes whose parent points at them). -/
def provideDocumentSymbols (cfg : DocConfig) (langId : LangId)
    (lines : List (List Char)) : Option (List DocNode) :=
  if cfg.enableOutlineView then some (scanDoc cfg langId lines).nodes else none

/-! ## WorkspaceSymbolProvider (src/WorkspaceSymbolProvider.ts)

`getWsSymbols` greps all configured patterns over the workspace folder
via `grepMultiple` (not under src/); the grep results are therefore
supplied by an oracle parameter mapping a configuration and query to the
found locations, and the embedding covers what the provider itself does
with them.  The cancellation token is modelled as a predicate on the
iteration index at which `token.isCancellationRequested` is read. -/

/-- The per-workspace configuration fields the provider reads (a missing
configuration for a folder behaves like `enableWorkspaceSymbols =
false`, since `!config?.enableWorkspaceSymbols` skips the folder either
way). -/
structure WsConfig where
  enableWorkspaceSymbols : Bool
  workspaceSymbolsRequiredLength : Nat
  labelsExcludes : List (List Char)
  deriving DecidableEq

/-- A grep hit: the matched symbol text (location data is irrelevant to
the claims and omitted). -/
structure WsLoc where
  symbol : List Char
  deriving DecidableEq

/-- A returned `vscode.SymbolInformation`. -/
structure WsSymInfo where
  name : List Char
  deriving DecidableEq

/-- `WorkspaceSymbolProvider.getWsSymbols` (source lines 82–117): filter
the grep hits against the label-exclusion list and wrap the survivors as
symbol information. -/
def getWsSymbols (grepResults : WsConfig → List Char → List WsLoc)
    (config : WsConfig) (query : List Char) : List WsSymInfo :=
  (grepResults config query).filterMap fun loc =>
    if config.labelsExcludes.contains loc.symbol then none
    else some ⟨loc.symbol⟩

/-- The folder loop of `provideWorkspaceSymbols` (source lines 47–71):
before each folder the cancellation token is read; if cancellation is
requested the promise resolves `undefined` — discarding `symbols`
gathered so far — otherwise disabled or below-threshold folders are
skipped and the folder's symbols are appended. -/
def provideWsGo (grepResults : WsConfig → List Char → List WsLoc)
    (query : List Char) (cancelled : Nat → Bool) :
    Nat → List WsSymInfo → List WsConfig → Option (List WsSymInfo)
  | _, acc, [] => some acc
  | i, acc, ws :: rest =>
      if cancelled i then none
      else if !ws.enableWorkspaceSymbols then
        provideWsGo grepResults query cancelled (i + 1) acc rest
      else if query.length < ws.workspaceSymbolsRequiredLength then
        provideWsGo grepResults query cancelled (i + 1) acc rest
      else
        provideWsGo grepResults query cancelled (i + 1)
          (acc ++ getWsSymbols grepResults ws query) rest

/-- `WorkspaceSymbolProvider.provideWorkspaceSymbols`: `none` models the
`resolve(undefined)` taken on cancellation, `some` the resolved symbol
list. -/
def provideWorkspaceSymbols (wsFolders : List WsConfig)
    (grepResults : WsConfig → List Char → List WsLoc)
    (query : List Char) (cancelled : Nat → Bool) : Option (List WsSymInfo) :=
  provideWsGo grepResults query cancelled 0 [] wsFolders

/-! ## Claim theorems -/

/-- A default configuration: outline enabled, no user-configured label
exclusions, cheap-local nesting off. -/
def cfg1 : DocConfig :=
  { enableOutlineView := true, labelsExcludes := [],
    enableCA65CheapLocalLabelNestingInOutline := false }

/-- C1 (code bug): on the document `MODULE foo` / `bar: nop` /
`.loop: nop` / `ENDMODULE` the scan returns only the label `bar` at the
document root with child `.loop` — no `Module "foo"` node is created and
nothing is nested under a module scope, because the `continue` closing
the `if (regexMacro)` block runs on every line and the MODULE/ENDMODULE
handling is never reached.  The claimed outline
`[Module "foo" → [bar → [.loop]]]` is what the lines 153–189 would
produce were they reachable. -/
theorem C1_module_scenario_eval :
    (scanDoc cfg1 .asmCollection
        (["MODULE foo", "bar: nop", ".loop: nop", "ENDMODULE"].map String.data)).nodes =
      [⟨"bar".data, [], .function, 1, .root, .label⟩,
       ⟨".loop".data, [], .function, 2, .node 0, .label⟩] ∧
    ((scanDoc cfg1 .asmCollection
        (["MODULE foo", "bar: nop", ".loop: nop", "ENDMODULE"].map String.data)).nodes.any
      (fun nd => nd.kind == DocSymbolKind.moduleKind)) = false := by
  constructor <;> decide

/-- C5 (code bug): a line matching the macro pattern does emit a Method
symbol at the document root, but on a line where the macro pattern does
NOT match (here `    MODULE foo`, for which `parseMacroCollection`
returns `none`), the later classification steps do not run either: the
scan of the single MODULE line emits no symbol at all and opens no
scope, because the `continue` at source line 150 sits inside
`if (regexMacro)` rather than inside `if (matchMacro)`. -/
theorem C5_macro_gate_eval :
    (scanDoc cfg1 .asmCollection ["    MACRO mym".data]).nodes =
      [⟨"mym".data, [], .method, 0, .root, .macroDecl⟩] ∧
    parseMacroCollection "    MODULE foo".data = none ∧
    (scanDoc cfg1 .asmCollection ["    MODULE foo".data]).nodes = [] ∧
    (scanDoc cfg1 .asmCollection ["    MODULE foo".data]).lastModules = [] := by
  refine ⟨by decide, by decide, by decide, by decide⟩

/-- C9 (code bug): a relative label before any absolute label is indeed
dropped, and a CA65 block-end does clear the pending parent — but after
an `ENDMODULE` line the relative label is NOT dropped: `ENDMODULE`
handling (which would clear `lastAbsSymbolChildren`, source line 183) is
unreachable because of the macro-check `continue`, so `.loop` below is
still attached under `bar`. -/
theorem C9_rel_label_drop_eval :
    (scanDoc cfg1 .asmCollection ([".orphan: nop"].map String.data)).nodes =
      [⟨".orphan".data, [], .function, 0, .detached, .label⟩] ∧
    (scanDoc cfg1 .asmCollection
        (["bar: nop", "    ENDMODULE", ".loop: nop"].map String.data)).nodes =
      [⟨"bar".data, [], .function, 0, .root, .label⟩,
       ⟨".loop".data, [], .function, 2, .node 0, .label⟩] := by
  constructor <;> decide

/-- C2 counterexample: in the document `bar: nop` / `    .endproc` /
`.loop: nop` a CA65 block-end directive occurs between the absolute
label `bar` and the relative label `.loop`; the claim says `.loop` is
still attached as a child of `bar`, but the scan leaves it detached
(it appears under no node and not at the root). -/
theorem C2_counterexample :
    ((scanDoc cfg1 .asmCollection
        (["bar: nop", "    .endproc", ".loop: nop"].map String.data)).nodes.any
      (fun nd => nd.name == ".loop".data && nd.parent == DocParent.node 0)) = false ∧
    ((scanDoc cfg1 .asmCollection
        (["bar: nop", "    .endproc", ".loop: nop"].map String.data)).nodes.map
      (fun nd => (nd.name, nd.parent))) =
      [("bar".data, .root), (".loop".data, .detached)] := by
  constructor <;> decide

/-- C3 counterexample: for the line sequence `.endproc` / `    .proc foo`
the closes exceed the opens on the first prefix, so the claim requires 0
open frames at the end — but the no-op pop followed by a push leaves 1
frame.  And for the single line `    MODULE foo` (opens = 1, closes = 0,
closes never exceed opens) the claim requires 1 open frame, but the
scope stack stays empty because MODULE handling is unreachable behind
the macro-check `continue`. -/
theorem C3_counterexample :
    (scanDoc cfg1 .asmCollection
        ([".endproc", "    .proc foo"].map String.data)).lastModules.length = 1 ∧
    (scanDoc cfg1 .asmCollection
        (["    MODULE foo"].map String.data)).lastModules.length = 0 := by
  constructor <;> decide

/-- C6 counterexample: for the source dialect (`asm-collection`) the
pattern returned by `regexEveryModuleForWord` is `^(\s+(MODULE)\s+)…`,
whose leading `\s+` requires at least one whitespace character — so a
line whose MODULE keyword starts at column 0, although MODULE is its
first non-whitespace token, does not match (the claim says it does). -/
theorem C6_counterexample :
    regexEveryModuleForWord .asmCollection [] "MODULE foo".data = none ∧
    regexEveryModuleForWord .asmCollection [] "  MODULE foo".data ≠ none := by
  constructor <;> decide

/-- C4 counterexample: with two enabled workspace roots whose grep finds
the symbol `s`, and cancellation observed after the first root was
processed (the token reads `false` at index 0 and `true` at index 1),
the provider resolves `undefined` — the symbols gathered for the
completed first root (here `[s]`, as `getWsSymbols` shows) are discarded
instead of being returned. -/
theorem C4_counterexample :
    provideWorkspaceSymbols
        [⟨true, 0, []⟩, ⟨true, 0, []⟩]
        (fun _ _ => [⟨"s".data⟩]) "ab".data (fun i => decide (1 ≤ i)) = none ∧
    getWsSymbols (fun _ _ => [⟨"s".data⟩]) ⟨true, 0, []⟩ "ab".data =
      [⟨"s".data⟩] := by
  constructor <;> decide

theorem provideWsGo_cancelled_of_exists
    (grepResults : WsConfig → List Char → List WsLoc) (query : List Char)
    (cancelled : Nat → Bool) :
    ∀ (l : List WsConfig) (i : Nat) (acc : List WsSymInfo),
      (∃ j, j < l.length ∧ cancelled (i + j) = true) →
      provideWsGo grepResults query cancelled i acc l = none := by
  intro l
  induction l with
  | nil =>
    rintro i acc ⟨j, hj, -⟩
    exact absurd hj (by simp)
  | cons ws rest ih =>
    rintro i acc ⟨j, hj, hc⟩
    by_cases hci : cancelled i = true
    · simp [provideWsGo, hci]
    · have hj0 : j ≠ 0 := by
        rintro rfl
        exact hci (by simpa using hc)
      obtain ⟨j', rfl⟩ := Nat.exists_eq_succ_of_ne_zero hj0
      have hrec : ∃ j, j < rest.length ∧ cancelled (i + 1 + j) = true := by
        refine ⟨j', by simpa [Nat.succ_lt_succ_iff] using hj, ?_⟩
        have : i + (j' + 1) = i + 1 + j' := by omega
        rw [← this]
        exact hc
      simp only [provideWsGo, hci, Bool.false_eq_true, if_false]
      split_ifs <;> exact ih _ _ hrec

/-- C4 (amended): when the cancellation token reads `true` at any
workspace-root index the loop reaches, `provideWorkspaceSymbols`
resolves `undefined` (`none`) — the symbols already gathered for
completed roots are discarded, not returned; only the roots before the
cancellation point were processed at all. -/
theorem C4_cancellation_discards_all (wsFolders : List WsConfig)
    (grepResults : WsConfig → List Char → List WsLoc) (query : List Char)
    (cancelled : Nat → Bool)
    (h : ∃ i, i < wsFolders.length ∧ cancelled i = true) :
    provideWorkspaceSymbols wsFolders grepResults query cancelled = none := by
  obtain ⟨i, hi, hc⟩ := h
  exact provideWsGo_cancelled_of_exists grepResults query cancelled wsFolders 0 []
    ⟨i, hi, by simpa using hc⟩

/-- Witness for C4: a concrete cancelled query resolves `undefined`. -/
theorem C4_cancellation_discards_all_witness :
    provideWorkspaceSymbols [⟨true, 0, []⟩] (fun _ _ => [⟨"s".data⟩])
      "ab".data (fun _ => true) = none :=
  C4_cancellation_discards_all _ _ _ _ ⟨0, by decide, rfl⟩

/-! ### Exclusion invariant (C8, C10) -/

/-- No label-branch node of the arena carries an excluded name. -/
def labelSafe (cfg : DocConfig) (ns : List DocNode) : Prop :=
  ∀ nd ∈ ns, nd.origin = .label → nd.name ∉ excludesList cfg

theorem labelSafe_append_nonlabel {cfg : DocConfig} {ns : List DocNode}
    {nd : DocNode} (h : labelSafe cfg ns) (ho : nd.origin ≠ .label) :
    labelSafe cfg (ns ++ [nd]) := by
  intro x hx hox
  rcases List.mem_append.1 hx with hx | hx
  · exact h x hx hox
  · rw [List.mem_singleton] at hx
    subst hx
    exact absurd hox ho

theorem labelSafe_append_ok {cfg : DocConfig} {ns : List DocNode}
    {nd : DocNode} (h : labelSafe cfg ns) (hn : nd.name ∉ excludesList cfg) :
    labelSafe cfg (ns ++ [nd]) := by
  intro x hx hox
  rcases List.mem_append.1 hx with hx | hx
  · exact h x hx hox
  · rw [List.mem_singleton] at hx
    subst hx
    exact hn

theorem labelSafe_reclassifyGo {cfg : DocConfig} {idxs : List Nat}
    {kind : DocSymbolKind} {detail : List Char} :
    ∀ (i : Nat) (ns : List DocNode), labelSafe cfg ns →
      labelSafe cfg (reclassifyGo idxs kind detail i ns) := by
  intro i ns
  induction ns generalizing i with
  | nil => intro h; simpa [reclassifyGo] using h
  | cons nd ns ih =>
    intro h x hx hox
    simp only [reclassifyGo] at hx
    rcases List.mem_cons.1 hx with hx | hx
    · have hnd := h nd (List.mem_cons_self _ _)
      by_cases hc : idxs.contains i = true <;>
        simp only [hc, if_true, if_false, Bool.false_eq_true] at hx <;>
        subst hx
      · exact hnd hox
      · exact hnd hox
    · exact ih (i + 1) (fun y hy => h y (List.mem_cons_of_mem _ hy)) x hx hox

theorem labelSafe_labelPhase (cfg : DocConfig) (lineNo : Nat) (st : ScanState)
    (l : List Char) (h : labelSafe cfg st.nodes) :
    labelSafe cfg (labelPhase cfg lineNo st l).1.nodes := by
  unfold labelPhase
  cases hm : regexLabel l with
  | none => simpa using h
  | some g =>
    obtain ⟨g1, g2, rest⟩ := g
    dsimp only
    by_cases hex : (excludesList cfg).contains (g1 ++ g2) = true
    · rw [if_pos hex]
      exact h
    · rw [if_neg hex]
      exact labelSafe_append_ok h (by simpa using hex)

theorem labelSafe_ca65Phase (lineNo : Nat) {cfg : DocConfig} (st : ScanState)
    (l : List Char) (h : labelSafe cfg st.nodes) :
    labelSafe cfg (ca65Phase lineNo st l).nodes := by
  unfold ca65Phase
  cases hm : regexAllCA65Directives l with
  | none =>
    by_cases hend : regexCA65BlockEnd l = true <;> simpa [hend] using h
  | some g =>
    obtain ⟨d, n⟩ := g
    simp only
    split_ifs <;> exact labelSafe_append_nonlabel h (by simp)

theorem labelSafe_classificationPhase {cfg : DocConfig} (st : ScanState)
    (l : List Char) (h : labelSafe cfg st.nodes) :
    labelSafe cfg (classificationPhase st l).nodes := by
  unfold classificationPhase
  by_cases he : (trimChars l).isEmpty = true <;>
    simp only [he, if_true, if_false, Bool.false_eq_true]
  · cases st.lastSymbol <;> simpa using h
  · cases st.lastSymbol with
    | none => simpa using h
    | some i =>
      simp only [he, Bool.false_eq_true, if_false]
      cases regexConst (trimChars l) with
      | some m => exact labelSafe_reclassifyGo 0 st.nodes h
      | none =>
        cases regexData (trimChars l) with
        | some m => exact labelSafe_reclassifyGo 0 st.nodes h
        | none => simpa using h

theorem labelSafe_moduleStructPhase (lineNo : Nat) {cfg : DocConfig}
    (st : ScanState) (l : List Char) (h : labelSafe cfg st.nodes) :
    labelSafe cfg (moduleStructPhase lineNo st l).nodes := by
  unfold moduleStructPhase
  cases hm : regexModuleLabel l with
  | some g =>
    obtain ⟨kw, nm⟩ := g
    simp only
    split_ifs <;>
      first
        | simpa using h
        | exact labelSafe_append_nonlabel h (by simp)
  | none =>
    cases hs : regexStructLabel l with
    | some g =>
      obtain ⟨kw, nm⟩ := g
      simp only [Option.map_some']
      split_ifs <;>
        first
          | simpa using h
          | exact labelSafe_append_nonlabel h (by simp)
    | none => exact labelSafe_classificationPhase st l h

theorem labelSafe_scanLine (cfg : DocConfig) (langId : LangId) (lineNo : Nat)
    (st : ScanState) (l : List Char) (h : labelSafe cfg st.nodes) :
    labelSafe cfg (scanLine cfg langId lineNo st l).nodes := by
  unfold scanLine macroOrModulePhase
  have h1 := labelSafe_labelPhase cfg lineNo st l h
  have h2 := labelSafe_ca65Phase lineNo _ (labelPhase cfg lineNo st l).2 h1
  cases regexMacroSym langId with
  | none => exact labelSafe_moduleStructPhase lineNo _ _ h2
  | some pm =>
    dsimp only
    cases pm (labelPhase cfg lineNo st l).2 with
    | none => exact h2
    | some nm => exact labelSafe_append_nonlabel h2 (by simp)

theorem labelSafe_scanDoc (cfg : DocConfig) (langId : LangId)
    (lines : List (List Char)) : labelSafe cfg (scanDoc cfg langId lines).nodes := by
  suffices h : ∀ (n : Nat) (st : ScanState), labelSafe cfg st.nodes →
      labelSafe cfg (scanDocGo cfg langId n st lines).nodes by
    exact h 0 initState (by intro nd hnd; simp [initState] at hnd)
  induction lines with
  | nil => intro n st h; simpa [scanDocGo] using h
  | cons l ls ih =>
    intro n st h
    exact ih (n + 1) _ (labelSafe_scanLine cfg langId n st l h)

/-- C8: a label whose bare text is in the configured exclusion list is
discarded entirely — the document-symbol scan never creates a
label-branch node with that name (for any document, dialect and
configuration), and `getWsSymbols` never returns a symbol with that name
(for any grep results and query). -/
theorem C8_excluded_labels_discarded (cfg : DocConfig) (langId : LangId)
    (lines : List (List Char)) (x : List Char) (hx : x ∈ cfg.labelsExcludes)
    (wcfg : WsConfig) (grepResults : WsConfig → List Char → List WsLoc)
    (query : List Char) (hxw : x ∈ wcfg.labelsExcludes) :
    (∀ nd ∈ (scanDoc cfg langId lines).nodes, nd.origin = .label → nd.name ≠ x) ∧
    (∀ s ∈ getWsSymbols grepResults wcfg query, s.name ≠ x) := by
  constructor
  · intro nd hnd ho
    have := labelSafe_scanDoc cfg langId lines nd hnd ho
    intro hname
    exact this (hname ▸ List.mem_cons_of_mem _ hx)
  · intro s hs
    simp only [getWsSymbols, List.mem_filterMap] at hs
    obtain ⟨loc, -, hloc⟩ := hs
    by_cases hc : wcfg.labelsExcludes.contains loc.symbol = true
    · rw [if_pos hc] at hloc
      exact absurd hloc (by simp)
    · rw [if_neg hc] at hloc
      injection hloc with h1
      subst h1
      intro hname
      have hnm : loc.symbol ∉ wcfg.labelsExcludes := by simpa using hc
      have hx2 : loc.symbol = x := hname
      exact hnm (hx2 ▸ hxw)

/-- Witness for C8 at a concrete excluded name, document and grep. -/
theorem C8_excluded_labels_discarded_witness :
    (⟨"foo".data, [], .function, 0, .root, .label⟩ : DocNode).name ≠ "xyz".data ∧
    (⟨"abc".data⟩ : WsSymInfo).name ≠ "xyz".data :=
  ⟨(C8_excluded_labels_discarded ⟨true, ["xyz".data], false⟩ .asmCollection
      ["foo: nop".data] "xyz".data (by decide) ⟨true, 0, ["xyz".data]⟩
      (fun _ _ => [⟨"abc".data⟩]) [] (by decide)).1
      ⟨"foo".data, [], .function, 0, .root, .label⟩ (by decide) rfl,
   (C8_excluded_labels_discarded ⟨true, ["xyz".data], false⟩ .asmCollection
      ["foo: nop".data] "xyz".data (by decide) ⟨true, 0, ["xyz".data]⟩
      (fun _ _ => [⟨"abc".data⟩]) [] (by decide)).2
      ⟨"abc".data⟩ (by decide)⟩

/-- C10: the exclusion set is the configured list plus the built-in
entry `include`: for every configuration (in particular one whose
`labelsExcludes` does not contain `include`) the scan never creates a
label-branch node named exactly `include`. -/
theorem C10_builtin_include_always_excluded (cfg : DocConfig)
    (langId : LangId) (lines : List (List Char)) :
    ∀ nd ∈ (scanDoc cfg langId lines).nodes, nd.origin = .label →
      nd.name ≠ "include".data := by
  intro nd hnd ho hname
  exact labelSafe_scanDoc cfg langId lines nd hnd ho
    (hname ▸ List.mem_cons_self _ _)

/-- Witness for C10 on a concrete document with an empty configured
exclusion list. -/
theorem C10_builtin_include_always_excluded_witness :
    (⟨"foo".data, [], .function, 1, .root, .label⟩ : DocNode).name ≠
      "include".data :=
  C10_builtin_include_always_excluded cfg1 .asmCollection
    ["include: nop".data, "foo: nop".data]
    ⟨"foo".data, [], .function, 1, .root, .label⟩ (by decide) rfl

/-! ### Scope-stack behaviour (C3) -/

theorem labelPhase_none {cfg : DocConfig} {n : Nat} {st : ScanState}
    {l : List Char} (h : regexLabel l = none) :
    labelPhase cfg n st l = (st, l) := by
  unfold labelPhase
  rw [h]

theorem ca65Phase_open {n : Nat} {st : ScanState} {l d nm : List Char}
    (h : regexAllCA65Directives l = some (d, nm))
    (hd : ".define".data.isPrefixOf d = false) :
    ca65Phase n st l =
      { st with
          nodes := st.nodes ++ [⟨nm, [], .method, n, topParent st.lastModules, .ca65⟩],
          lastModules := st.lastModules ++ [st.nodes.length] } := by
  unfold ca65Phase
  rw [h]
  simp [hd]

theorem ca65Phase_end {n : Nat} {st : ScanState} {l : List Char}
    (h : regexAllCA65Directives l = none) (he : regexCA65BlockEnd l = true) :
    ca65Phase n st l =
      { st with lastModules := st.lastModules.dropLast,
                lastAbsSymbolChildren := none } := by
  unfold ca65Phase
  rw [h]
  simp [he]

theorem ca65Phase_skip {n : Nat} {st : ScanState} {l : List Char}
    (h : regexAllCA65Directives l = none) (he : regexCA65BlockEnd l = false) :
    ca65Phase n st l = st := by
  unfold ca65Phase
  rw [h]
  simp [he]

/-- The macro-gated tail of the iteration never touches the scope stack:
`regexMacroSym` is defined for both dialects, so the MODULE/STRUCT
branch (the only post-CA65 code that modifies `lastModules`) is
unreachable. -/
theorem macroOrModulePhase_lastModules (langId : LangId) (n : Nat)
    (st2 : ScanState) (l1 : List Char) :
    (macroOrModulePhase langId n st2 l1).lastModules = st2.lastModules := by
  unfold macroOrModulePhase
  cases langId <;> dsimp only [regexMacroSym]
  · cases parseMacroCollection l1 <;> rfl
  · cases parseMacroList l1 <;> rfl

/-- A line that opens a CA65 scope frame: no label match, a named
non-`.define` CA65 directive. -/
def isCAOpenLine (l : List Char) : Bool :=
  (regexLabel l).isNone &&
    (match regexAllCA65Directives l with
     | some dn => !(".define".data.isPrefixOf dn.1)
     | none => false)

/-- A line that closes a CA65 scope frame: no label match, no directive
match, a block-end match. -/
def isCAEndLine (l : List Char) : Bool :=
  (regexLabel l).isNone && (regexAllCA65Directives l).isNone && regexCA65BlockEnd l

theorem isCAOpenLine_elim {l : List Char} (h : isCAOpenLine l = true) :
    regexLabel l = none ∧
      ∃ d nm, regexAllCA65Directives l = some (d, nm) ∧
        ".define".data.isPrefixOf d = false := by
  unfold isCAOpenLine at h
  cases hr : regexLabel l with
  | some g => rw [hr] at h; simp at h
  | none =>
    rw [hr] at h
    cases hc : regexAllCA65Directives l with
    | none => rw [hc] at h; simp at h
    | some dn =>
      rw [hc] at h
      refine ⟨rfl, dn.1, dn.2, rfl, ?_⟩
      simpa using h

theorem isCAEndLine_elim {l : List Char} (h : isCAEndLine l = true) :
    regexLabel l = none ∧ regexAllCA65Directives l = none ∧
      regexCA65BlockEnd l = true := by
  unfold isCAEndLine at h
  cases hr : regexLabel l with
  | some g => rw [hr] at h; simp at h
  | none =>
    rw [hr] at h
    cases hc : regexAllCA65Directives l with
    | some dn => rw [hc] at h; simp at h
    | none =>
      rw [hc] at h
      exact ⟨rfl, rfl, by simpa using h⟩

/-- How one scanned line changes the scope-stack depth, for CA65
open/close lines and for lines that match none of the label, directive
and block-end patterns (MODULE/ENDMODULE and STRUCT/ENDS lines are of
the latter kind: their handling is unreachable behind the macro-check
`continue`, so they leave the stack untouched). -/
theorem scanLine_lastModules_open {cfg : DocConfig} {langId : LangId}
    {n : Nat} {st : ScanState} {l : List Char} (h : isCAOpenLine l = true) :
    (scanLine cfg langId n st l).lastModules =
      st.lastModules ++ [st.nodes.length] := by
  obtain ⟨hl, d, nm, hc, hd⟩ := isCAOpenLine_elim h
  unfold scanLine
  rw [labelPhase_none hl]
  rw [macroOrModulePhase_lastModules]
  rw [ca65Phase_open hc hd]

theorem scanLine_lastModules_end {cfg : DocConfig} {langId : LangId}
    {n : Nat} {st : ScanState} {l : List Char} (h : isCAEndLine l = true) :
    (scanLine cfg langId n st l).lastModules = st.lastModules.dropLast := by
  obtain ⟨hl, hc, he⟩ := isCAEndLine_elim h
  unfold scanLine
  rw [labelPhase_none hl]
  rw [macroOrModulePhase_lastModules]
  rw [ca65Phase_end hc he]

theorem scanLine_lastModules_other {cfg : DocConfig} {langId : LangId}
    {n : Nat} {st : ScanState} {l : List Char} (hl : regexLabel l = none)
    (hc : regexAllCA65Directives l = none) (he : regexCA65BlockEnd l = false) :
    (scanLine cfg langId n st l).lastModules = st.lastModules := by
  unfold scanLine
  rw [labelPhase_none hl]
  rw [macroOrModulePhase_lastModules]
  rw [ca65Phase_skip hc he]

/-- Depth evolution of a stack whose pop is a no-op on empty: `+1` on an
open, `max (0, d − 1)` (natural subtraction) on a close. -/
def natFold : Nat → List Bool → Nat
  | d, [] => d
  | d, b :: bs => natFold (if b then d + 1 else d - 1) bs

/-- "Closes never exceed opens at any prefix", as a running check from a
starting depth. -/
def prefixOk : Nat → List Bool → Bool
  | _, [] => true
  | d, b :: bs =>
      if b then prefixOk (d + 1) bs else (decide (0 < d) && prefixOk (d - 1) bs)

theorem natFold_eq_of_prefixOk :
    ∀ (bs : List Bool) (d : Nat), prefixOk d bs = true →
      natFold d bs = d + bs.count true - bs.count false := by
  intro bs
  induction bs with
  | nil => intro d _; simp [natFold]
  | cons b bs ih =>
    intro d h
    cases b with
    | true =>
      rw [show prefixOk d (true :: bs) = prefixOk (d + 1) bs from rfl] at h
      rw [show natFold d (true :: bs) = natFold (d + 1) bs from rfl]
      rw [ih (d + 1) h]
      have h1 : List.count true (true :: bs) = List.count true bs + 1 := by
        simp [List.count_cons]
      have h2 : List.count false (true :: bs) = List.count false bs := by
        simp [List.count_cons]
      rw [h1, h2]
      omega
    | false =>
      rw [show prefixOk d (false :: bs) =
        (decide (0 < d) && prefixOk (d - 1) bs) from rfl] at h
      rw [Bool.and_eq_true, decide_eq_true_eq] at h
      obtain ⟨hd, h⟩ := h
      rw [show natFold d (false :: bs) = natFold (d - 1) bs from rfl]
      rw [ih (d - 1) h]
      have h1 : List.count true (false :: bs) = List.count true bs := by
        simp [List.count_cons]
      have h2 : List.count false (false :: bs) = List.count false bs + 1 := by
        simp [List.count_cons]
      rw [h1, h2]
      omega

theorem scanDocGo_ca65_length (cfg : DocConfig) (langId : LangId) :
    ∀ (lines : List (List Char)) (n : Nat) (st : ScanState),
      (∀ l ∈ lines, (isCAOpenLine l || isCAEndLine l) = true) →
      (scanDocGo cfg langId n st lines).lastModules.length =
        natFold st.lastModules.length (lines.map isCAOpenLine) := by
  intro lines
  induction lines with
  | nil => intro n st _; rfl
  | cons l ls ih =>
    intro n st h
    have hl := h l (List.mem_cons_self _ _)
    have hrest : ∀ x ∈ ls, (isCAOpenLine x || isCAEndLine x) = true :=
      fun x hx => h x (List.mem_cons_of_mem _ hx)
    show (scanDocGo cfg langId (n + 1) (scanLine cfg langId n st l) ls).lastModules.length = _
    rw [ih (n + 1) _ hrest]
    by_cases ho : isCAOpenLine l = true
    · rw [List.map_cons, natFold, if_pos ho]
      congr 1
      rw [scanLine_lastModules_open ho]
      simp
    · have he : isCAEndLine l = true := by
        rcases Bool.or_eq_true_iff.1 hl with h1 | h1
        · exact absurd h1 ho
        · exact h1
      rw [List.map_cons, natFold, if_neg (by simpa using ho)]
      congr 1
      rw [scanLine_lastModules_end he]
      simp

/-- C3 (amended): restricted to CA65 block-open/block-end lines the
scope stack obeys the floored-fold recurrence (pop on empty is a no-op,
never an error or a negative count), and therefore ends at
`opens − closes` whenever closes never exceed opens at any prefix; the
"equals 0 when closes ever exceed opens" clause is dropped (a close on
an empty stack is simply ignored, so later opens still count), and
MODULE/ENDMODULE (or STRUCT/ENDS) lines are excluded because they never
reach the scope-stack code: they leave the frame count unchanged. -/
theorem C3_scope_stack_invariant (cfg : DocConfig) (langId : LangId)
    (lines : List (List Char))
    (h : ∀ l ∈ lines, (isCAOpenLine l || isCAEndLine l) = true) :
    (scanDoc cfg langId lines).lastModules.length =
      natFold 0 (lines.map isCAOpenLine) ∧
    (prefixOk 0 (lines.map isCAOpenLine) = true →
      (scanDoc cfg langId lines).lastModules.length =
        (lines.map isCAOpenLine).count true -
          (lines.map isCAOpenLine).count false) ∧
    (∀ (n : Nat) (st : ScanState) (l : List Char), regexLabel l = none →
      regexAllCA65Directives l = none → regexCA65BlockEnd l = false →
      (scanLine cfg langId n st l).lastModules = st.lastModules) := by
  have hfold : (scanDoc cfg langId lines).lastModules.length =
      natFold 0 (lines.map isCAOpenLine) :=
    scanDocGo_ca65_length cfg langId lines 0 initState h
  refine ⟨hfold, ?_, ?_⟩
  · intro hpre
    rw [hfold, natFold_eq_of_prefixOk _ 0 hpre, Nat.zero_add]
  · intro n st l hl hc he
    exact scanLine_lastModules_other hl hc he

/-- Witness for C3 on a concrete balanced CA65 document and a concrete
ENDMODULE line. -/
theorem C3_scope_stack_invariant_witness :
    (scanDoc cfg1 .asmCollection
        ["    .proc foo".data, "    .endproc".data]).lastModules.length =
      natFold 0 ((["    .proc foo".data, "    .endproc".data] :
        List (List Char)).map isCAOpenLine) ∧
    (scanDoc cfg1 .asmCollection
        ["    .proc foo".data, "    .endproc".data]).lastModules.length =
      ((["    .proc foo".data, "    .endproc".data] :
        List (List Char)).map isCAOpenLine).count true -
        ((["    .proc foo".data, "    .endproc".data] :
          List (List Char)).map isCAOpenLine).count false ∧
    (scanLine cfg1 .asmCollection 7 initState "    ENDMODULE".data).lastModules =
      initState.lastModules :=
  ⟨(C3_scope_stack_invariant cfg1 .asmCollection _ (by decide)).1,
   (C3_scope_stack_invariant cfg1 .asmCollection _ (by decide)).2.1 (by decide),
   (C3_scope_stack_invariant cfg1 .asmCollection
      ["    .proc foo".data, "    .endproc".data] (by decide)).2.2 7 initState
      "    ENDMODULE".data (by decide) (by decide) (by decide)⟩

/-! ### Relative-label attachment (C2, helper lemmas) -/

theorem get?_append_right {α : Type} {ns ms : List α} {i : Nat} {a : α}
    (h : ns.get? i = some a) : (ns ++ ms).get? i = some a := by
  induction ns generalizing i with
  | nil => simp at h
  | cons x ns ih =>
    cases i with
    | zero => simpa using h
    | succ j => simpa using ih (by simpa using h)

theorem get?_concat {α : Type} (l : List α) (a : α) :
    (l ++ [a]).get? l.length = some a := by
  induction l with
  | nil => rfl
  | cons x l ih => simp [ih]

theorem ca65Phase_nodes_extend (n : Nat) (st : ScanState) (l : List Char) :
    ∃ m, (ca65Phase n st l).nodes = st.nodes ++ m := by
  unfold ca65Phase
  cases regexAllCA65Directives l with
  | some dn =>
    obtain ⟨d, nm⟩ := dn
    dsimp only
    split_ifs <;> exact ⟨_, rfl⟩
  | none =>
    by_cases he : regexCA65BlockEnd l = true
    · rw [if_pos he]
      exact ⟨[], by simp⟩
    · rw [if_neg he]
      exact ⟨[], by simp⟩

theorem macroOrModulePhase_nodes_extend (langId : LangId) (n : Nat)
    (st2 : ScanState) (l1 : List Char) :
    ∃ m, (macroOrModulePhase langId n st2 l1).nodes = st2.nodes ++ m := by
  unfold macroOrModulePhase
  cases langId <;> dsimp only [regexMacroSym]
  · cases parseMacroCollection l1 with
    | none => exact ⟨[], by simp⟩
    | some nm => exact ⟨_, rfl⟩
  · cases parseMacroList l1 with
    | none => exact ⟨[], by simp⟩
    | some nm => exact ⟨_, rfl⟩

theorem macroOrModulePhase_lastAbs (langId : LangId) (n : Nat)
    (st2 : ScanState) (l1 : List Char) :
    (macroOrModulePhase langId n st2 l1).lastAbsSymbolChildren =
      st2.lastAbsSymbolChildren := by
  unfold macroOrModulePhase
  cases langId <;> dsimp only [regexMacroSym]
  · cases parseMacroCollection l1 <;> rfl
  · cases parseMacroList l1 <;> rfl

theorem labelPhase_some {cfg : DocConfig} {n : Nat} {st : ScanState}
    {l g1 g2 rest : List Char} (hm : regexLabel l = some (g1, g2, rest))
    (hex : (excludesList cfg).contains (g1 ++ g2) = false) :
    labelPhase cfg n st l =
      ({ st with
          nodes := st.nodes ++
            [⟨g1 ++ g2, [], st.defaultSymbolKind, n,
              (if (g1 ++ g2).head? = some '.' then
                parentOfOpt st.lastAbsSymbolChildren
               else if (!cfg.enableCA65CheapLocalLabelNestingInOutline &&
                   decide ((g1 ++ g2).head? = some '@')) = true then
                DocParent.root
               else topParent st.lastModules), .label⟩],
          lastSymbol := some st.nodes.length,
          lastSymbols := st.lastSymbols ++ [st.nodes.length],
          lastAbsSymbolChildren :=
            (if (g1 ++ g2).head? = some '.' then st.lastAbsSymbolChildren
             else if (!cfg.enableCA65CheapLocalLabelNestingInOutline &&
                 decide ((g1 ++ g2).head? = some '@')) = true then
              st.lastAbsSymbolChildren
             else some st.nodes.length) },
        rest ++ [' ']) := by
  unfold labelPhase
  rw [hm]
  dsimp only
  rw [if_neg (show ¬((excludesList cfg).contains (g1 ++ g2) = true) by
    rw [hex]; simp)]

/-- C2 (amended): a relative (`.`-prefixed) label attaches exactly to
the pending absolute-label parent (`lastAbsSymbolChildren`) — and that
pointer holds the nearest preceding absolute label *except* across CA65
block-end lines: (a) a non-excluded relative-label line creates its node
with the pending pointer as parent (detached when none is pending);
(b) a non-excluded absolute-label line (neither `.`- nor root-attached
`@`-prefixed) attaches under the scope top and becomes the new pending
parent; (c) a CA65 block-end line clears the pending parent, so relative
labels after it and before the next absolute label are dropped — this is
the exception the claim lacks; (d) any other line that matches neither
the label nor the CA65 patterns — in particular every MODULE/ENDMODULE
or STRUCT/ENDS line — leaves the pending parent unchanged, so relative
labels do attach across MODULE/STRUCT close lines in accordance with the
claim. -/
theorem C2_relative_label_parent (cfg : DocConfig) (langId : LangId)
    (n : Nat) (st : ScanState) (l g1 g2 rest : List Char) :
    (regexLabel l = some (g1, g2, rest) →
      (excludesList cfg).contains (g1 ++ g2) = false →
      (g1 ++ g2).head? = some '.' →
      (scanLine cfg langId n st l).nodes.get? st.nodes.length =
        some ⟨g1 ++ g2, [], st.defaultSymbolKind, n,
          parentOfOpt st.lastAbsSymbolChildren, .label⟩) ∧
    (regexLabel l = some (g1, g2, rest) →
      (excludesList cfg).contains (g1 ++ g2) = false →
      ¬(g1 ++ g2).head? = some '.' →
      (!cfg.enableCA65CheapLocalLabelNestingInOutline &&
        decide ((g1 ++ g2).head? = some '@')) = false →
      regexAllCA65Directives (rest ++ [' ']) = none →
      regexCA65BlockEnd (rest ++ [' ']) = false →
      (scanLine cfg langId n st l).lastAbsSymbolChildren =
        some st.nodes.length ∧
      (scanLine cfg langId n st l).nodes.get? st.nodes.length =
        some ⟨g1 ++ g2, [], st.defaultSymbolKind, n,
          topParent st.lastModules, .label⟩) ∧
    (regexLabel l = none → regexAllCA65Directives l = none →
      regexCA65BlockEnd l = true →
      (scanLine cfg langId n st l).lastAbsSymbolChildren = none) ∧
    (regexLabel l = none → regexAllCA65Directives l = none →
      regexCA65BlockEnd l = false →
      (scanLine cfg langId n st l).lastAbsSymbolChildren =
        st.lastAbsSymbolChildren) := by
  refine ⟨?_, ?_, ?_, ?_⟩
  · intro hm hex hrel
    unfold scanLine
    rw [labelPhase_some hm hex]
    dsimp only
    rw [if_pos hrel]
    obtain ⟨m1, h1⟩ := ca65Phase_nodes_extend n _ (rest ++ [' '])
    obtain ⟨m2, h2⟩ := macroOrModulePhase_nodes_extend langId n _ (rest ++ [' '])
    rw [h2, h1]
    dsimp only
    exact get?_append_right (get?_append_right (get?_concat _ _))
  · intro hm hex hrel hch hca hce
    unfold scanLine
    rw [labelPhase_some hm hex]
    dsimp only
    rw [if_neg hrel, if_neg (by rw [hch]; simp)]
    constructor
    · rw [macroOrModulePhase_lastAbs, ca65Phase_skip hca hce]
      dsimp only
      rw [if_neg hrel, if_neg (by rw [hch]; simp)]
    · obtain ⟨m1, h1⟩ := ca65Phase_nodes_extend n _ (rest ++ [' '])
      obtain ⟨m2, h2⟩ := macroOrModulePhase_nodes_extend langId n _ (rest ++ [' '])
      rw [h2, h1]
      dsimp only
      exact get?_append_right (get?_append_right (get?_concat _ _))
  · intro hl hca hce
    unfold scanLine
    rw [labelPhase_none hl]
    rw [macroOrModulePhase_lastAbs, ca65Phase_end hca hce]
  · intro hl hca hce
    unfold scanLine
    rw [labelPhase_none hl]
    rw [macroOrModulePhase_lastAbs, ca65Phase_skip hca hce]

/-- Witness for C2 at concrete lines: a relative label attaching under a
pending absolute label, an absolute label becoming the pending parent, a
CA65 block-end clearing it, and an ENDMODULE line leaving it intact. -/
theorem C2_relative_label_parent_witness :
    ((scanLine cfg1 .asmCollection 1
        ⟨[⟨"bar".data, [], .function, 0, .root, .label⟩], some 0, [0], some 0,
          [], .function⟩ ".loop: nop".data).nodes.get? 1 =
      some ⟨".loop".data, [], .function, 1, parentOfOpt (some 0), .label⟩) ∧
    ((scanLine cfg1 .asmCollection 0 initState "bar: nop".data).lastAbsSymbolChildren =
      some 0) ∧
    ((scanLine cfg1 .asmCollection 2
        ⟨[⟨"bar".data, [], .function, 0, .root, .label⟩], some 0, [0], some 0,
          [], .function⟩ "    .endproc".data).lastAbsSymbolChildren = none) ∧
    ((scanLine cfg1 .asmCollection 2
        ⟨[⟨"bar".data, [], .function, 0, .root, .label⟩], some 0, [0], some 0,
          [], .function⟩ "    ENDMODULE".data).lastAbsSymbolChildren = some 0) :=
  ⟨(C2_relative_label_parent cfg1 .asmCollection 1 _ ".loop: nop".data
      [] ".loop".data " nop".data).1 (by decide) (by decide) (by decide),
   ((C2_relative_label_parent cfg1 .asmCollection 0 initState "bar: nop".data
      [] "bar".data " nop".data).2.1 (by decide) (by decide) (by decide)
      (by decide) (by decide) (by decide)).1,
   (C2_relative_label_parent cfg1 .asmCollection 2 _ "    .endproc".data
      [] [] []).2.2.1 (by decide) (by decide) (by decide),
   (C2_relative_label_parent cfg1 .asmCollection 2 _ "    ENDMODULE".data
      [] [] []).2.2.2 (by decide) (by decide) (by decide)⟩

/-! ### The MODULE-for-word pattern (C6) -/

theorem ne_nil_of_isEmpty_false {α : Type} {l : List α}
    (h : l.isEmpty = false) : l ≠ [] := by
  cases l with
  | nil => simp at h
  | cons a l => simp

theorem execKeywordCore_some {kw q line g : List Char}
    (h : execKeywordCore kw q line = some g) :
    ∃ s1 m s2 rest, line = g ++ rest ∧ g = s1 ++ m ++ s2 ∧ s1 ≠ [] ∧
      s1.all isSpaceChar = true ∧ m.map Char.toLower = kw ∧ s2 ≠ [] ∧
      s2.all isSpaceChar = true ∧ fuzzyMatch q rest = true := by
  unfold execKeywordCore at h
  by_cases h1 : (line.takeWhile isSpaceChar).isEmpty = true
  · rw [if_pos h1] at h
    exact absurd h (by simp)
  · rw [if_neg h1] at h
    cases hstrip : stripCI kw (line.dropWhile isSpaceChar) with
    | none => rw [hstrip] at h; exact absurd h (by simp)
    | some mr =>
      obtain ⟨m, r2⟩ := mr
      rw [hstrip] at h
      dsimp only at h
      by_cases h2 : (r2.takeWhile isSpaceChar).isEmpty = true
      · rw [if_pos h2] at h
        exact absurd h (by simp)
      · rw [if_neg h2] at h
        by_cases h3 : fuzzyMatch q (r2.dropWhile isSpaceChar) = true
        · rw [if_pos h3] at h
          obtain rfl : line.takeWhile isSpaceChar ++ m ++
              r2.takeWhile isSpaceChar = g := by
            injection h
          obtain ⟨hr1, hm⟩ := stripCI_append hstrip
          refine ⟨line.takeWhile isSpaceChar, m, r2.takeWhile isSpaceChar,
            r2.dropWhile isSpaceChar, ?_, rfl,
            ne_nil_of_isEmpty_false (by simpa using h1), List.all_takeWhile,
            hm, ne_nil_of_isEmpty_false (by simpa using h2),
            List.all_takeWhile, h3⟩
          conv_lhs => rw [← List.takeWhile_append_dropWhile isSpaceChar line]
          rw [hr1]
          conv_lhs => rw [← List.takeWhile_append_dropWhile isSpaceChar r2]
          simp [List.append_assoc]
        · rw [if_neg h3] at h
          exact absurd h (by simp)

theorem execKeywordCore_head_space {kw q line g : List Char}
    (h : execKeywordCore kw q line = some g) :
    ∃ c r, line = c :: r ∧ isSpaceChar c = true := by
  obtain ⟨s1, m, s2, rest, hline, hg, hs1, hall, -, -, -, -⟩ :=
    execKeywordCore_some h
  cases s1 with
  | nil => exact absurd rfl hs1
  | cons c s1 =>
    refine ⟨c, s1 ++ m ++ s2 ++ rest, ?_, ?_⟩
    · rw [hline, hg]
      simp
    · have h2 := hall
      rw [List.all_cons, Bool.and_eq_true] at h2
      exact h2.1

theorem name_take_nil {name : List Char}
    (hn : ∀ c, name.head? = some c → isSpaceChar c = false) :
    name.takeWhile isSpaceChar = [] := by
  cases name with
  | nil => rfl
  | cons c r => simp [List.takeWhile_cons, hn c rfl]

theorem name_drop_self {name : List Char}
    (hn : ∀ c, name.head? = some c → isSpaceChar c = false) :
    name.dropWhile isSpaceChar = name := by
  cases name with
  | nil => rfl
  | cons c r => simp [List.dropWhile_cons, hn c rfl]

theorem execKeywordCore_module_build {q name : List Char}
    (hf : fuzzyMatch q name = true)
    (hn : ∀ c, name.head? = some c → isSpaceChar c = false) :
    execKeywordCore "module".data q (' ' :: ("MODULE ".data ++ name)) =
      some (' ' :: "MODULE ".data) := by
  have h1 : (' ' :: ("MODULE ".data ++ name)).takeWhile isSpaceChar = [' '] := rfl
  have h2 : (' ' :: ("MODULE ".data ++ name)).dropWhile isSpaceChar =
      "MODULE".data ++ (' ' :: name) := rfl
  have h3 : stripCI "module".data ("MODULE".data ++ (' ' :: name)) =
      some ("MODULE".data, ' ' :: name) := rfl
  have h4 : (' ' :: name).takeWhile isSpaceChar =
      ' ' :: name.takeWhile isSpaceChar := rfl
  have h5 : (' ' :: name).dropWhile isSpaceChar =
      name.dropWhile isSpaceChar := rfl
  unfold execKeywordCore
  rw [h1, h2]
  dsimp only
  rw [h3]
  dsimp only
  rw [h4, h5, name_take_nil hn, name_drop_self hn]
  simp [hf]

theorem execKeywordList_isSome {kw q : List Char} :
    ∀ (pre s acc : List Char), (execKeywordCore kw q s).isSome = true →
      (execKeywordList kw q (pre ++ s) acc).isSome = true := by
  intro pre
  induction pre with
  | nil =>
    intro s acc h
    rw [List.nil_append]
    cases s with
    | nil =>
      rw [show execKeywordCore kw q [] = none from rfl] at h
      simp at h
    | cons c r =>
      unfold execKeywordList
      cases hc : execKeywordCore kw q (c :: r) with
      | none => rw [hc] at h; simp at h
      | some g => rfl
  | cons c p ih =>
    intro s acc h
    rw [List.cons_append]
    unfold execKeywordList
    cases hc : execKeywordCore kw q (c :: (p ++ s)) with
    | some g => rfl
    | none => exact ih s (c :: acc) h

/-- C6 (amended): for the source dialect `regexEveryModuleForWord`
returns `^(\s+(MODULE)\s+) fuzzy [\w\.]*`, which matches only when at
least one whitespace character precedes the MODULE keyword — a MODULE
keyword at column 0 does NOT match — and otherwise exactly when MODULE
is the first non-whitespace token followed by whitespace and a
fuzzy-matching word; capture group 1 holds everything before the
matched word (leading whitespace, keyword, following whitespace).  The
listing-file variant additionally allows an arbitrary prefix before
that whitespace.  (Greedy whitespace resolution in the embedding
coincides with the regex engine for whitespace-free queries; the
completeness parts assume a name that does not begin with
whitespace.) -/
theorem C6_module_for_word_pattern (q line g pre name : List Char) :
    (regexEveryModuleForWord .asmCollection q line = some g →
      ∃ c r, line = c :: r ∧ isSpaceChar c = true) ∧
    (regexEveryModuleForWord .asmCollection q line = some g →
      ∃ s1 m s2 rest, line = g ++ rest ∧ g = s1 ++ m ++ s2 ∧ s1 ≠ [] ∧
        s1.all isSpaceChar = true ∧ m.map Char.toLower = "module".data ∧
        s2 ≠ [] ∧ s2.all isSpaceChar = true ∧ fuzzyMatch q rest = true) ∧
    (fuzzyMatch q name = true →
      (∀ c, name.head? = some c → isSpaceChar c = false) →
      regexEveryModuleForWord .asmCollection q
        (' ' :: ("MODULE ".data ++ name)) = some (' ' :: "MODULE ".data)) ∧
    (fuzzyMatch q name = true →
      (∀ c, name.head? = some c → isSpaceChar c = false) →
      (regexEveryModuleForWord .asmListFile q
        (pre ++ ' ' :: ("MODULE ".data ++ name))).isSome = true) := by
  refine ⟨?_, ?_, ?_, ?_⟩
  · intro h
    exact execKeywordCore_head_space h
  · intro h
    exact execKeywordCore_some h
  · intro hf hn
    exact execKeywordCore_module_build hf hn
  · intro hf hn
    have hcore : (execKeywordCore "module".data q
        (' ' :: ("MODULE ".data ++ name))).isSome = true := by
      rw [execKeywordCore_module_build hf hn]
      rfl
    exact execKeywordList_isSome pre _ [] hcore

/-- Witness for C6 at a concrete query, line, prefix and module name. -/
theorem C6_module_for_word_pattern_witness :
    (∃ c r, " MODULE foo".data = c :: r ∧ isSpaceChar c = true) ∧
    (∃ s1 m s2 rest, " MODULE foo".data = " MODULE ".data ++ rest ∧
      " MODULE ".data = s1 ++ m ++ s2 ∧ s1 ≠ [] ∧
      s1.all isSpaceChar = true ∧ m.map Char.toLower = "module".data ∧
      s2 ≠ [] ∧ s2.all isSpaceChar = true ∧
      fuzzyMatch "fo".data rest = true) ∧
    (regexEveryModuleForWord .asmCollection "fo".data
      (' ' :: ("MODULE ".data ++ "foo".data)) = some (' ' :: "MODULE ".data)) ∧
    ((regexEveryModuleForWord .asmListFile "fo".data
      ("8F00 ".data ++ ' ' :: ("MODULE ".data ++ "foo".data))).isSome = true) := by
  have hn : ∀ c, ("foo".data).head? = some c → isSpaceChar c = false := by
    intro c hc
    simp only [List.head?] at hc
    cases hc
    decide
  exact ⟨(C6_module_for_word_pattern "fo".data " MODULE foo".data
      " MODULE ".data "8F00 ".data "foo".data).1 (by decide),
    (C6_module_for_word_pattern "fo".data " MODULE foo".data
      " MODULE ".data "8F00 ".data "foo".data).2.1 (by decide),
    (C6_module_for_word_pattern "fo".data " MODULE foo".data
      " MODULE ".data "8F00 ".data "foo".data).2.2.1 (by decide) hn,
    (C6_module_for_word_pattern "fo".data " MODULE foo".data
      " MODULE ".data "8F00 ".data "foo".data).2.2.2 (by decide) hn⟩

/-! ### Fuzzy subsequence property (C7) -/

theorem isWordChar_not_space {c : Char} (h : isWordChar c = true) :
    isSpaceChar c = false := by
  by_cases hs : isSpaceChar c = true
  · rw [isSpaceChar_not_word hs] at h
    exact absurd h (by simp)
  · simpa using hs

/-- The tail `[\w\.]*\b(?![:\w\.])` of the label-without-colon pattern
succeeds on any word-character remainder. -/
theorem lwcTail_allword :
    ∀ (s : List Char) (prev : Option Char), s.all isWordChar = true →
      (isWordOpt prev = true ∨ s ≠ []) →
      mStar isLabelChar prev s (fun p2 s2 =>
        mBound p2 s2 (fun p3 s3 =>
          mNegLook isColonOrLabelChar p3 s3 (fun _ _ => true))) = true := by
  intro s
  induction s with
  | nil =>
    intro prev _ hp
    have hw : isWordOpt prev = true := by
      rcases hp with h | h
      · exact h
      · exact absurd rfl h
    have hb : isBoundary prev none = true := by
      unfold isBoundary
      rw [hw]
      rfl
    simp [mStar, mStarGo, mBound, mNegLook, hb]
  | cons c r ih =>
    intro prev hall _
    rw [List.all_cons, Bool.and_eq_true] at hall
    obtain ⟨hc, hr⟩ := hall
    simp only [mStar, mStarGo, Bool.or_eq_true]
    right
    rw [Bool.and_eq_true]
    refine ⟨by simp [isLabelChar, hc], ?_⟩
    have := ih (some c) hr (Or.inl (by simpa [isWordOpt] using hc))
    simpa [mStar] using this

/-- The tail `[\w\.]*:(?:[^:]|$)` of the label-with-colon pattern
succeeds on a word-character remainder followed by a single colon. -/
theorem lccTail_allword :
    ∀ (s : List Char) (prev : Option Char), s.all isWordChar = true →
      mStar isLabelChar prev (s ++ [':']) (fun p2 s2 =>
        mCharLit ':' p2 s2 (fun p3 s3 =>
          mAlt (mPred (· != ':')) mEndA p3 s3 (fun _ _ => true))) = true := by
  intro s
  induction s with
  | nil =>
    intro prev _
    simp [mStar, mStarGo, mCharLit, mPred, mAlt, mEndA]
  | cons c r ih =>
    intro prev hall
    rw [List.all_cons, Bool.and_eq_true] at hall
    obtain ⟨hc, hr⟩ := hall
    simp only [List.cons_append, mStar, mStarGo, Bool.or_eq_true]
    right
    rw [Bool.and_eq_true]
    refine ⟨by simp [isLabelChar, hc], ?_⟩
    have := ih (some c) hr
    simpa [mStar] using this

/-- The fuzzy pattern `\w*c1\w*…ck` accepts any query that is a
subsequence of the word-character part of the input, handing the rest to
a continuation that tolerates every suffix split. -/
theorem mFuzzy_of_isSubseqB (t : List Char) (k : MK)
    (hk : ∀ (prev : Option Char) (s2 : List Char), s2.all isWordChar = true →
      (isWordOpt prev = true ∨ s2 ≠ []) → k prev (s2 ++ t) = true) :
    ∀ (I Q : List Char) (prev : Option Char), isSubseqB Q I = true →
      I.all isWordChar = true → (isWordOpt prev = true ∨ I ≠ []) →
      mFuzzy Q prev (I ++ t) k = true := by
  intro I
  induction I with
  | nil =>
    intro Q prev hsub _ hp
    have hw : isWordOpt prev = true := by
      rcases hp with h | h
      · exact h
      · exact absurd rfl h
    cases Q with
    | nil => simpa [mFuzzy, mEps] using hk prev [] (by simp) (Or.inl hw)
    | cons c q => simp [isSubseqB] at hsub
  | cons d r ih =>
    intro Q prev hsub hall hp
    rw [List.all_cons, Bool.and_eq_true] at hall
    obtain ⟨hd, hr⟩ := hall
    cases Q with
    | nil =>
      simpa [mFuzzy, mEps] using
        hk prev (d :: r) (by simp [hd, hr]) (Or.inr (by simp))
    | cons c q =>
      simp only [isSubseqB] at hsub
      rw [show (d :: r) ++ t = d :: (r ++ t) from rfl]
      simp only [mFuzzy, mSeq, mStar, mStarGo, Bool.or_eq_true]
      by_cases hcd : c = d
      · rw [if_pos hcd] at hsub
        left
        subst hcd
        simp only [mCharCI, mPred, Bool.and_eq_true]
        refine ⟨by simp [charCIEq], ?_⟩
        exact ih q (some c) hsub hr (Or.inl (by simpa [isWordOpt] using hd))
      · rw [if_neg hcd] at hsub
        right
        rw [Bool.and_eq_true]
        refine ⟨hd, ?_⟩
        have := ih (c :: q) (some d) hsub hr
          (Or.inl (by simpa [isWordOpt] using hd))
        simpa [mFuzzy, mSeq, mStar] using this

theorem bool_or_left {a b : Bool} (h : a = true) : (a || b) = true := by
  cases b <;> simp [h]

theorem bool_or_right {a b : Bool} (h : b = true) : (a || b) = true := by
  cases a <;> simp [h]

theorem bool_and_intro {a b : Bool} (ha : a = true) (hb : b = true) :
    (a && b) = true := by
  rw [ha, hb]
  rfl

/-- Universal part of C7 for `regexEveryLabelWithoutColonForWord`: the
pattern accepts any word-character identifier of which the query is a
subsequence (group 1 empty, fuzzy word at the start, trailing
`[\w\.]*\b(?!…)` consuming the rest). -/
theorem labelWithoutColonMatch_subseq {Q : List Char} {d : Char}
    {r : List Char} (hsub : isSubseqB Q (d :: r) = true)
    (hw : (d :: r).all isWordChar = true) :
    labelWithoutColonMatch Q (d :: r) = true := by
  have hd : isWordChar d = true := by
    rw [List.all_cons, Bool.and_eq_true] at hw
    exact hw.1
  have hb : isBoundary none (d :: r).head? = true := by
    unfold isBoundary
    simp [isWordOpt, hd]
  have hk : ∀ (prev : Option Char) (s2 : List Char), s2.all isWordChar = true →
      (isWordOpt prev = true ∨ s2 ≠ []) →
      (fun p3 s3 => mStar isLabelChar p3 s3 (fun p4 s4 =>
        mBound p4 s4 (fun p5 s5 =>
          mNegLook isColonOrLabelChar p5 s5 (fun _ _ => true))))
        prev (s2 ++ ([] : List Char)) = true := by
    intro prev s2 h1 h2
    rw [List.append_nil]
    exact lwcTail_allword s2 prev h1 h2
  have hfz := mFuzzy_of_isSubseqB [] _ hk (d :: r) Q none hsub hw
    (Or.inr (by simp))
  rw [List.append_nil] at hfz
  apply bool_or_right
  apply bool_and_intro hb
  exact hfz

/-- Universal part of C7 for `regexEveryLabelColonForWord`
(`asm-collection` branch): the pattern accepts `identifier:` for any
word-character identifier of which the query is a subsequence. -/
theorem labelColonCollectionMatch_subseq {Q : List Char} {d : Char}
    {r : List Char} (hsub : isSubseqB Q (d :: r) = true)
    (hw : (d :: r).all isWordChar = true) :
    labelColonCollectionMatch Q ((d :: r) ++ [':']) = true := by
  have hd : isWordChar d = true := by
    rw [List.all_cons, Bool.and_eq_true] at hw
    exact hw.1
  have hb : isBoundary none ((d :: (r ++ [':'])).head?) = true := by
    unfold isBoundary
    simp [isWordOpt, hd]
  have hk : ∀ (prev : Option Char) (s2 : List Char), s2.all isWordChar = true →
      (isWordOpt prev = true ∨ s2 ≠ []) →
      (fun p3 s3 => mStar isLabelChar p3 s3 (fun p4 s4 =>
        mCharLit ':' p4 s4 (fun p5 s5 =>
          mAlt (mPred (· != ':')) mEndA p5 s5 (fun _ _ => true))))
        prev (s2 ++ [':']) = true := by
    intro prev s2 h1 _
    exact lccTail_allword s2 prev h1
  have hfz := mFuzzy_of_isSubseqB [':'] _ hk (d :: r) Q none hsub hw
    (Or.inr (by simp))
  apply bool_or_left
  apply bool_or_right
  apply bool_or_left
  apply bool_and_intro hb
  exact hfz

theorem execKeywordCore_macro_build {q name : List Char}
    (hf : fuzzyMatch q name = true)
    (hn : ∀ c, name.head? = some c → isSpaceChar c = false) :
    execKeywordCore "macro".data q (' ' :: ("MACRO ".data ++ name)) =
      some (' ' :: "MACRO ".data) := by
  have h1 : (' ' :: ("MACRO ".data ++ name)).takeWhile isSpaceChar = [' '] := rfl
  have h2 : (' ' :: ("MACRO ".data ++ name)).dropWhile isSpaceChar =
      "MACRO".data ++ (' ' :: name) := rfl
  have h3 : stripCI "macro".data ("MACRO".data ++ (' ' :: name)) =
      some ("MACRO".data, ' ' :: name) := rfl
  have h4 : (' ' :: name).takeWhile isSpaceChar =
      ' ' :: name.takeWhile isSpaceChar := rfl
  have h5 : (' ' :: name).dropWhile isSpaceChar =
      name.dropWhile isSpaceChar := rfl
  unfold execKeywordCore
  rw [h1, h2]
  dsimp only
  rw [h3]
  dsimp only
  rw [h4, h5, name_take_nil hn, name_drop_self hn]
  simp [hf]

theorem all_head_not_space {I : List Char} (hw : I.all isWordChar = true) :
    ∀ c, I.head? = some c → isSpaceChar c = false := by
  intro c hc
  cases I with
  | nil => simp at hc
  | cons d r =>
    rw [List.all_cons, Bool.and_eq_true] at hw
    simp only [List.head?, Option.some.injEq] at hc
    subst hc
    exact isWordChar_not_space hw.1

/-- C7: for every word-character identifier `I` and every query `Q`
that is a (literal, in-order) subsequence of `I`'s characters, the
compiled fuzzy pattern `\w*c1\w*c2…` matches `I` inside each of the
label/module/macro search patterns: the label-without-colon pattern on
the line `I`, the label-with-colon pattern on the line `I:`, and the
MODULE/MACRO word patterns on ` MODULE I` / ` MACRO I`; and concretely,
the query `sn` matches `SetAndReturn` and `Sync` (case-insensitively)
but not `Other`. -/
theorem C7_fuzzy_subsequence_matches (I Q : List Char) (hne : I ≠ [])
    (hw : I.all isWordChar = true) (hsub : isSubseqB Q I = true) :
    labelWithoutColonMatch Q I = true ∧
    labelColonCollectionMatch Q (I ++ [':']) = true ∧
    (regexEveryModuleForWord .asmCollection Q
      (' ' :: ("MODULE ".data ++ I))).isSome = true ∧
    (regexEveryMacroForWord .asmCollection Q
      (' ' :: ("MACRO ".data ++ I))).isSome = true ∧
    labelWithoutColonMatch "sn".data "SetAndReturn".data = true ∧
    labelWithoutColonMatch "sn".data "Sync".data = true ∧
    labelWithoutColonMatch "sn".data "Other".data = false := by
  obtain ⟨d, r, rfl⟩ : ∃ d r, I = d :: r := by
    cases I with
    | nil => exact absurd rfl hne
    | cons d r => exact ⟨d, r, rfl⟩
  have hfm : fuzzyMatch Q (d :: r) = true := fuzzyMatch_of_isSubseqB hsub hw
  have hhead := all_head_not_space hw
  refine ⟨labelWithoutColonMatch_subseq hsub hw,
    labelColonCollectionMatch_subseq hsub hw, ?_, ?_, by decide, by decide,
    by decide⟩
  · rw [show regexEveryModuleForWord .asmCollection Q
        (' ' :: ("MODULE ".data ++ (d :: r))) =
        execKeywordCore "module".data Q
          (' ' :: ("MODULE ".data ++ (d :: r))) from rfl]
    rw [execKeywordCore_module_build hfm hhead]
    rfl
  · rw [show regexEveryMacroForWord .asmCollection Q
        (' ' :: ("MACRO ".data ++ (d :: r))) =
        execKeywordCore "macro".data Q
          (' ' :: ("MACRO ".data ++ (d :: r))) from rfl]
    rw [execKeywordCore_macro_build hfm hhead]
    rfl

/-- Witness for C7 at identifier `SetAndReturn`, query `Sn`. -/
theorem C7_fuzzy_subsequence_matches_witness :
    labelWithoutColonMatch "Sn".data "SetAndReturn".data = true ∧
    labelColonCollectionMatch "Sn".data ("SetAndReturn".data ++ [':']) = true ∧
    (regexEveryModuleForWord .asmCollection "Sn".data
      (' ' :: ("MODULE ".data ++ "SetAndReturn".data))).isSome = true ∧
    (regexEveryMacroForWord .asmCollection "Sn".data
      (' ' :: ("MACRO ".data ++ "SetAndReturn".data))).isSome = true ∧
    labelWithoutColonMatch "sn".data "SetAndReturn".data = true ∧
    labelWithoutColonMatch "sn".data "Sync".data = true ∧
    labelWithoutColonMatch "sn".data "Other".data = false :=
  C7_fuzzy_subsequence_matches "SetAndReturn".data "Sn".data (by decide)
    (by decide) (by decide)
